import Mathlib

/-!
Shallow embedding of `src/u12.rs`: the `U12` 12-bit unsigned integer type,
a tuple struct wrapping a `u16` backing value. Machine integers are modelled
as `Nat` with an explicit `% 2 ^ w` at every point where the Rust `u16`
arithmetic could leave the 16-bit range (release-mode wrapping semantics);
input domains of fixed-width arguments are modelled by reducing the argument
mod the width. A Rust panic is modelled as `none`.
-/

/-- The `U12` tuple struct. `val` is the stored `u16` backing value. -/
structure U12 where
  val : Nat

instance : DecidableEq U12 :=
  fun a b => decidable_of_iff (a.val = b.val) (by cases a; cases b; simp)

/-- The representation invariant: the stored backing value is in [0, 4095]. -/
def U12.Inv (x : U12) : Prop := x.val ≤ 4095

instance (x : U12) : Decidable x.Inv :=
  inferInstanceAs (Decidable (x.val ≤ 4095))

/-- The public constant `MAX = U12(0xFFF)`. -/
def MAX : U12 := ⟨0xFFF⟩

/-- The public constant `MIN = U12(0x000)`. -/
def MIN : U12 := ⟨0x000⟩

/-- `U12::min_value()`. -/
def U12.min_value : U12 := MIN

/-- `U12::max_value()`. -/
def U12.max_value : U12 := MAX

/-- Fuel-bounded population count; with fuel 16 it computes the number of set
bits of any value below `2 ^ 16`, which is what `u16::count_ones` returns. -/
def popCountAux : Nat → Nat → Nat
  | 0, _ => 0
  | fuel + 1, n => if n = 0 then 0 else n % 2 + popCountAux fuel (n / 2)

/-- `u16::count_ones`; the argument is a `u16`, modelled mod `2 ^ 16`. -/
def u16.count_ones (n : Nat) : Nat := popCountAux 16 (n % 65536)

/-- `u16::count_zeros`: the number of unset bits among all 16 bits. -/
def u16.count_zeros (n : Nat) : Nat := 16 - u16.count_ones n

/-- Fuel-bounded trailing-zero count; with fuel 16 it matches
`u16::trailing_zeros`, returning 16 when the argument is zero. -/
def trailingZerosAux : Nat → Nat → Nat
  | 0, _ => 0
  | fuel + 1, n => if n % 2 = 1 then 0 else 1 + trailingZerosAux fuel (n / 2)

/-- `u16::trailing_zeros`; the argument is a `u16`, modelled mod `2 ^ 16`. -/
def u16.trailing_zeros (n : Nat) : Nat := trailingZerosAux 16 (n % 65536)

/-- `U12::count_ones`: `self.0.count_ones()`. -/
def U12.count_ones (x : U12) : Nat := u16.count_ones x.val

/-- `U12::count_zeros`: `self.0.count_zeros() - 4`. The source subtraction is
on `u32`; here it is `Nat` truncated subtraction, which agrees with it in
every case where the source subtraction does not underflow. -/
def U12.count_zeros (x : U12) : Nat := u16.count_zeros x.val - 4

/-- `U12::trailing_zeros`: `self.0.trailing_zeros()`, a direct delegation to
the native 16-bit count with no adjustment. -/
def U12.trailing_zeros (x : U12) : Nat := u16.trailing_zeros x.val

/-- `U12::checked_add`: the raw backing sum `self.0 + other.0` (a `u16`
addition, wrapped mod `2 ^ 16`) matched against the range pattern
`0...4095`; in range gives `Some`, out of range gives `None`. -/
def U12.checked_add (a b : U12) : Option U12 :=
  if (a.val + b.val) % 65536 ≤ 4095 then some ⟨(a.val + b.val) % 65536⟩ else none

/-- `U12::saturating_add`: same raw backing sum and range match, but the out
of range arm returns `Self::max_value()`. -/
def U12.saturating_add (a b : U12) : U12 :=
  if (a.val + b.val) % 65536 ≤ 4095 then ⟨(a.val + b.val) % 65536⟩ else U12.max_value

/-- `U12::wrapping_add`: `U12((self.0 + other.0) & 0xFFF)`. -/
def U12.wrapping_add (a b : U12) : U12 :=
  ⟨((a.val + b.val) % 65536) &&& 0xFFF⟩

/-- `u16::checked_sub`: `Some(a - b)` when `b ≤ a`, otherwise `None`. -/
def u16.checked_sub (a b : Nat) : Option Nat :=
  if b ≤ a then some (a - b) else none

/-- `U12::checked_sub`: a match on `self.0.checked_sub(other.0)` rewrapping
the payload in `U12`. -/
def U12.checked_sub (a b : U12) : Option U12 :=
  match u16.checked_sub a.val b.val with
  | some value => some ⟨value⟩
  | none => none

/-- `u16::saturating_sub`: clamps at zero, exactly `Nat` truncated
subtraction. -/
def u16.saturating_sub (a b : Nat) : Nat := a - b

/-- `U12::saturating_sub`: `U12(self.0.saturating_sub(other.0))`. -/
def U12.saturating_sub (a b : U12) : U12 := ⟨u16.saturating_sub a.val b.val⟩

/-- `u16::wrapping_sub`: subtraction mod `2 ^ 16` on `u16` values. -/
def u16.wrapping_sub (a b : Nat) : Nat := (a + (65536 - b % 65536)) % 65536

/-- `U12::wrapping_sub`: `U12(self.0.wrapping_sub(other.0) & 0xFFF)`. -/
def U12.wrapping_sub (a b : U12) : U12 := ⟨u16.wrapping_sub a.val b.val &&& 0xFFF⟩

/-- `From<u8> for U12`: `U12(small as u16)`; the argument is a `u8` value,
modelled mod `2 ^ 8`, and the cast to `u16` is exact. -/
def U12.from_u8 (n : Nat) : U12 := ⟨n % 256⟩

/-- `FailableInto<U12> for u16`: `None` when the receiver exceeds `0xFFF`,
otherwise `Some(U12(self as u16))`. The receiver is a `u16`, modelled mod
`2 ^ 16`. -/
def u16.failable_into (n : Nat) : Option U12 :=
  if 4095 < n % 65536 then none else some ⟨n % 65536⟩

/-- `FailableInto<U12> for u32`: same macro body, receiver mod `2 ^ 32`. -/
def u32.failable_into (n : Nat) : Option U12 :=
  if 4095 < n % 4294967296 then none else some ⟨n % 4294967296⟩

/-- `FailableInto<U12> for u64`: same macro body, receiver mod `2 ^ 64`. -/
def u64.failable_into (n : Nat) : Option U12 :=
  if 4095 < n % 18446744073709551616 then none else some ⟨n % 18446744073709551616⟩

/-- `FailableInto<U12> for usize`: same macro body; the pointer-sized width
is modelled as 64 bits. -/
def usize.failable_into (n : Nat) : Option U12 :=
  if 4095 < n % 18446744073709551616 then none else some ⟨n % 18446744073709551616⟩

/-- `Default for U12`: `U12::min_value()`. -/
def U12.default : U12 := U12.min_value

/-- `Add<U12> for U12`: a match on `checked_add` that panics on `None`; the
panic is modelled as `none`, a successful return as `some`. -/
def U12.add (a b : U12) : Option U12 :=
  match a.checked_add b with
  | some result => some result
  | none => none

/-- `Sub<U12> for U12`: a match on `checked_sub` that panics on `None`. -/
def U12.sub (a b : U12) : Option U12 :=
  match a.checked_sub b with
  | some result => some result
  | none => none

/-- `Add<U12> for &U12`: `(*self).add(other)`; dereferencing is identity in
the embedding. -/
def U12.addRefVal (a b : U12) : Option U12 := U12.add a b

/-- `Add<&U12> for U12`: `self.add(*other)`. -/
def U12.addValRef (a b : U12) : Option U12 := U12.add a b

/-- `Add<&U12> for &U12`: `(*self).add(*other)`. -/
def U12.addRefRef (a b : U12) : Option U12 := U12.add a b

/-- `Sub<U12> for &U12`: `(*self).sub(other)`. -/
def U12.subRefVal (a b : U12) : Option U12 := U12.sub a b

/-- `Sub<&U12> for U12`: `self.sub(*other)`. -/
def U12.subValRef (a b : U12) : Option U12 := U12.sub a b

/-- `Sub<&U12> for &U12`: `(*self).sub(*other)`. -/
def U12.subRefRef (a b : U12) : Option U12 := U12.sub a b

/-! ## Helper lemmas -/

/-- Masking with `0xFFF` is reduction mod `4096`. -/
theorem and_4095_eq_mod (y : Nat) : y &&& 4095 = y % 4096 := by
  have h := Nat.and_pow_two_sub_one_eq_mod y 12
  norm_num at h
  exact h

/-- A value below `2 ^ k` has at most `k` set bits, for any sufficient fuel. -/
theorem popCountAux_le : ∀ fuel k n : Nat, n < 2 ^ k → k ≤ fuel → popCountAux fuel n ≤ k := by
  intro fuel
  induction fuel with
  | zero =>
    intro k n hn hk
    simp [popCountAux]
  | succ fuel ih =>
    intro k n hn hk
    by_cases h0 : n = 0
    · simp [popCountAux, h0]
    · cases k with
      | zero =>
        simp only [pow_zero, Nat.lt_one_iff] at hn
        exact absurd hn h0
      | succ k =>
        rw [pow_succ] at hn
        have hdiv : n / 2 < 2 ^ k := by omega
        have hrec := ih k (n / 2) hdiv (by omega)
        simp only [popCountAux, if_neg h0]
        omega

/-- Under the invariant, `checked_add` computes the bare sum test. -/
theorem checked_add_eq (a b : U12) (ha : a.Inv) (hb : b.Inv) :
    a.checked_add b = if a.val + b.val ≤ 4095 then some ⟨a.val + b.val⟩ else none := by
  simp only [U12.Inv] at ha hb
  have hm : (a.val + b.val) % 65536 = a.val + b.val := Nat.mod_eq_of_lt (by omega)
  simp only [U12.checked_add, hm]

/-- Behaviour of the shared `failable_into` macro body on an in-width
receiver. -/
theorem failable_into_gen (w n : Nat) (hn : n % w = n) :
    (4095 < n → (if 4095 < n % w then none else some (⟨n % w⟩ : U12)) = none) ∧
    (n ≤ 4095 → (if 4095 < n % w then none else some (⟨n % w⟩ : U12)) = some ⟨n⟩) := by
  rw [hn]
  constructor
  · intro h
    rw [if_pos h]
  · intro h
    rw [if_neg (by omega)]

/-! ## Claim theorems -/

/-- C1: every operation that produces a `U12` (construction from `u8`,
fallible construction from the wider native widths, checked, saturating and
wrapping addition and subtraction, the default value, `min_value` and
`max_value`) yields a stored backing value in [0, 4095]; in particular the
invariant holds after wrapping (modular) arithmetic. -/
theorem u12_invariant_preserved (a b : U12) (ha : a.Inv) (hb : b.Inv) (n8 n : Nat) :
    (U12.from_u8 n8).Inv ∧
    (∀ y, u16.failable_into n = some y → y.Inv) ∧
    (∀ y, u32.failable_into n = some y → y.Inv) ∧
    (∀ y, u64.failable_into n = some y → y.Inv) ∧
    (∀ y, usize.failable_into n = some y → y.Inv) ∧
    (∀ y, a.checked_add b = some y → y.Inv) ∧
    (a.saturating_add b).Inv ∧
    (a.wrapping_add b).Inv ∧
    (∀ y, a.checked_sub b = some y → y.Inv) ∧
    (a.saturating_sub b).Inv ∧
    (a.wrapping_sub b).Inv ∧
    U12.default.Inv ∧ U12.min_value.Inv ∧ U12.max_value.Inv := by
  simp only [U12.Inv] at ha hb
  refine ⟨?_, ?_, ?_, ?_, ?_, ?_, ?_, ?_, ?_, ?_, ?_, by decide, by decide, by decide⟩
  · show n8 % 256 ≤ 4095
    omega
  · intro y hy
    simp only [u16.failable_into] at hy
    split at hy
    · exact Option.noConfusion hy
    · injection hy with h
      subst h
      show n % 65536 ≤ 4095
      omega
  · intro y hy
    simp only [u32.failable_into] at hy
    split at hy
    · exact Option.noConfusion hy
    · injection hy with h
      subst h
      show n % 4294967296 ≤ 4095
      omega
  · intro y hy
    simp only [u64.failable_into] at hy
    split at hy
    · exact Option.noConfusion hy
    · injection hy with h
      subst h
      show n % 18446744073709551616 ≤ 4095
      omega
  · intro y hy
    simp only [usize.failable_into] at hy
    split at hy
    · exact Option.noConfusion hy
    · injection hy with h
      subst h
      show n % 18446744073709551616 ≤ 4095
      omega
  · intro y hy
    simp only [U12.checked_add] at hy
    split at hy
    · injection hy with h
      subst h
      show (a.val + b.val) % 65536 ≤ 4095
      omega
    · exact Option.noConfusion hy
  · simp only [U12.Inv, U12.saturating_add]
    split
    · show (a.val + b.val) % 65536 ≤ 4095
      omega
    · decide
  · show ((a.val + b.val) % 65536) &&& 4095 ≤ 4095
    exact Nat.and_le_right
  · intro y hy
    by_cases hba : b.val ≤ a.val
    · simp only [U12.checked_sub, u16.checked_sub, if_pos hba] at hy
      injection hy with h
      subst h
      show a.val - b.val ≤ 4095
      omega
    · simp only [U12.checked_sub, u16.checked_sub, if_neg hba] at hy
      exact Option.noConfusion hy
  · show a.val - b.val ≤ 4095
    omega
  · show u16.wrapping_sub a.val b.val &&& 4095 ≤ 4095
    exact Nat.and_le_right

/-- Witness for C1 at `a = 5`, `b = 3`, `n8 = 7`, `n = 100`. -/
theorem u12_invariant_preserved_witness :
    U12.Inv ⟨5⟩ ∧ U12.Inv ⟨3⟩ ∧
    ((U12.from_u8 7).Inv ∧
     (∀ y, u16.failable_into 100 = some y → y.Inv) ∧
     (∀ y, u32.failable_into 100 = some y → y.Inv) ∧
     (∀ y, u64.failable_into 100 = some y → y.Inv) ∧
     (∀ y, usize.failable_into 100 = some y → y.Inv) ∧
     (∀ y, U12.checked_add ⟨5⟩ ⟨3⟩ = some y → y.Inv) ∧
     (U12.saturating_add ⟨5⟩ ⟨3⟩).Inv ∧
     (U12.wrapping_add ⟨5⟩ ⟨3⟩).Inv ∧
     (∀ y, U12.checked_sub ⟨5⟩ ⟨3⟩ = some y → y.Inv) ∧
     (U12.saturating_sub ⟨5⟩ ⟨3⟩).Inv ∧
     (U12.wrapping_sub ⟨5⟩ ⟨3⟩).Inv ∧
     U12.default.Inv ∧ U12.min_value.Inv ∧ U12.max_value.Inv) :=
  ⟨by decide, by decide, u12_invariant_preserved ⟨5⟩ ⟨3⟩ (by decide) (by decide) 7 100⟩

/-- C2 counterexample: `trailing_zeros` on the zero-valued `U12` does not
return 12; the code delegates to the native 16-bit count, which returns 16 on
zero. -/
theorem trailing_zeros_zero_not_12 : ¬ U12.trailing_zeros U12.min_value = 12 := by
  decide

/-- C2 amended: `trailing_zeros` applied to the zero-valued `U12` returns 16,
the backing storage width, because the implementation delegates directly to
the native `u16` count with no 12-bit adjustment. -/
theorem trailing_zeros_zero_eq_16 : U12.trailing_zeros U12.min_value = 16 := by
  decide

/-- C3: under the invariant, `checked_add` returns `some` iff the exact
mathematical sum is at most 4095, and the value returned then equals that
exact sum. -/
theorem checked_add_exact (a b : U12) (ha : a.Inv) (hb : b.Inv) :
    ((a.checked_add b).isSome ↔ a.val + b.val ≤ 4095) ∧
    (∀ c, a.checked_add b = some c → c.val = a.val + b.val) := by
  rw [checked_add_eq a b ha hb]
  by_cases h : a.val + b.val ≤ 4095
  · rw [if_pos h]
    refine ⟨by simp [h], ?_⟩
    intro c hc
    injection hc with h2
    rw [← h2]
  · rw [if_neg h]
    refine ⟨by simp [h], ?_⟩
    intro c hc
    exact Option.noConfusion hc

/-- Witness for C3 at `a = 1`, `b = 1`. -/
theorem checked_add_exact_witness :
    U12.Inv ⟨1⟩ ∧
    ((U12.checked_add ⟨1⟩ ⟨1⟩).isSome ↔ 1 + 1 ≤ 4095) ∧
    (∀ c, U12.checked_add ⟨1⟩ ⟨1⟩ = some c → c.val = 1 + 1) :=
  ⟨by decide, checked_add_exact ⟨1⟩ ⟨1⟩ (by decide) (by decide)⟩

/-- C4: for every native unsigned input of width 16, 32, 64 or pointer size
(modelled as 64 bits), the fallible conversion into `U12` succeeds with the
numerically equal `U12` iff the input is at most 4095 and returns `none`
otherwise, never truncating; in particular converting 4096 fails and
converting 4095 yields `max_value`. -/
theorem failable_conversion_exact (n16 n32 n64 np : Nat)
    (h16 : n16 < 65536) (h32 : n32 < 4294967296)
    (h64 : n64 < 18446744073709551616) (hp : np < 18446744073709551616) :
    ((4095 < n16 → u16.failable_into n16 = none) ∧
     (n16 ≤ 4095 → u16.failable_into n16 = some ⟨n16⟩)) ∧
    ((4095 < n32 → u32.failable_into n32 = none) ∧
     (n32 ≤ 4095 → u32.failable_into n32 = some ⟨n32⟩)) ∧
    ((4095 < n64 → u64.failable_into n64 = none) ∧
     (n64 ≤ 4095 → u64.failable_into n64 = some ⟨n64⟩)) ∧
    ((4095 < np → usize.failable_into np = none) ∧
     (np ≤ 4095 → usize.failable_into np = some ⟨np⟩)) ∧
    u16.failable_into 4096 = none ∧
    u16.failable_into 4095 = some U12.max_value := by
  refine ⟨?_, ?_, ?_, ?_, by decide, by decide⟩
  · exact failable_into_gen 65536 n16 (Nat.mod_eq_of_lt h16)
  · exact failable_into_gen 4294967296 n32 (Nat.mod_eq_of_lt h32)
  · exact failable_into_gen 18446744073709551616 n64 (Nat.mod_eq_of_lt h64)
  · exact failable_into_gen 18446744073709551616 np (Nat.mod_eq_of_lt hp)

/-- Witness for C4 at inputs 4095 (u16), 70000 (u32), 12 (u64), 4096
(usize). -/
theorem failable_conversion_exact_witness :
    u16.failable_into 4095 = some ⟨4095⟩ ∧ u32.failable_into 70000 = none ∧
    u64.failable_into 12 = some ⟨12⟩ ∧ usize.failable_into 4096 = none :=
  ⟨(failable_conversion_exact 4095 70000 12 4096 (by decide) (by decide)
      (by decide) (by decide)).1.2 (by decide),
   (failable_conversion_exact 4095 70000 12 4096 (by decide) (by decide)
      (by decide) (by decide)).2.1.1 (by decide),
   (failable_conversion_exact 4095 70000 12 4096 (by decide) (by decide)
      (by decide) (by decide)).2.2.1.2 (by decide),
   (failable_conversion_exact 4095 70000 12 4096 (by decide) (by decide)
      (by decide) (by decide)).2.2.2.1.1 (by decide)⟩

/-- C5: under the invariant, `wrapping_sub` computes the difference of the
two values modulo 4096 (as mathematical integers). -/
theorem wrapping_sub_mod (a b : U12) (ha : a.Inv) (hb : b.Inv) :
    ((a.wrapping_sub b).val : Int) = ((a.val : Int) - (b.val : Int)) % 4096 := by
  simp only [U12.Inv] at ha hb
  show ((u16.wrapping_sub a.val b.val &&& 4095 : Nat) : Int) = _
  rw [and_4095_eq_mod]
  simp only [u16.wrapping_sub]
  omega

/-- Witness for C5 at `a = 0`, `b = 5`, together with the concrete value
4091 (0xFFB) named by the claim. -/
theorem wrapping_sub_mod_witness :
    U12.Inv ⟨0⟩ ∧ U12.Inv ⟨5⟩ ∧
    ((U12.wrapping_sub ⟨0⟩ ⟨5⟩).val : Int) = ((0 : Int) - 5) % 4096 ∧
    (U12.wrapping_sub ⟨0⟩ ⟨5⟩).val = 4091 :=
  ⟨by decide, by decide, wrapping_sub_mod ⟨0⟩ ⟨5⟩ (by decide) (by decide), by decide⟩

/-- C6: `saturating_add` agrees with `checked_add` whenever the latter
succeeds and returns `max_value` whenever the latter fails; it never signals
failure (it is a total function into `U12`). -/
theorem saturating_add_matches_checked (a b : U12) :
    (∀ c, a.checked_add b = some c → a.saturating_add b = c) ∧
    (a.checked_add b = none → a.saturating_add b = U12.max_value) := by
  have hc_def : a.checked_add b =
      if (a.val + b.val) % 65536 ≤ 4095 then some ⟨(a.val + b.val) % 65536⟩ else none := rfl
  have hs_def : a.saturating_add b =
      if (a.val + b.val) % 65536 ≤ 4095 then ⟨(a.val + b.val) % 65536⟩ else U12.max_value := rfl
  by_cases h : (a.val + b.val) % 65536 ≤ 4095
  · rw [hc_def, hs_def, if_pos h, if_pos h]
    constructor
    · intro c hc
      injection hc with h2
    · intro hc
      exact Option.noConfusion hc
  · rw [hc_def, hs_def, if_neg h, if_neg h]
    constructor
    · intro c hc
      exact Option.noConfusion hc
    · intro hc
      rfl

/-- Witness for C6 at the saturation boundary `a = 4095`, `b = 1`. -/
theorem saturating_add_matches_checked_witness :
    U12.saturating_add ⟨4095⟩ ⟨1⟩ = U12.max_value :=
  (saturating_add_matches_checked ⟨4095⟩ ⟨1⟩).2 (by decide)

/-- C7: under the invariant, the set and unset bit counts of a `U12` sum to
the field width 12. -/
theorem count_ones_add_count_zeros (x : U12) (h : x.Inv) :
    x.count_ones + x.count_zeros = 12 := by
  simp only [U12.Inv] at h
  have hm : x.val % 65536 = x.val := Nat.mod_eq_of_lt (by omega)
  have h12 : popCountAux 16 x.val ≤ 12 :=
    popCountAux_le 16 12 x.val
      (lt_of_lt_of_eq (by omega : x.val < 4096) (by norm_num)) (by omega)
  simp only [U12.count_ones, U12.count_zeros, u16.count_ones, u16.count_zeros, hm]
  omega

/-- Witness for C7 at `x = 0xABC`. -/
theorem count_ones_add_count_zeros_witness :
    U12.Inv ⟨0xABC⟩ ∧ U12.count_ones ⟨0xABC⟩ + U12.count_zeros ⟨0xABC⟩ = 12 :=
  ⟨by decide, count_ones_add_count_zeros ⟨0xABC⟩ (by decide)⟩

/-- C8: operator-form addition returns exactly the result of `checked_add`
when it succeeds and panics (modelled as `none`) exactly when `checked_add`
returns `none`; in particular `max_value() + U12::from(1)` panics. -/
theorem add_operator_matches_checked :
    (∀ a b : U12, U12.add a b = a.checked_add b) ∧
    U12.add U12.max_value (U12.from_u8 1) = none := by
  constructor
  · intro a b
    cases hab : a.checked_add b <;> simp [U12.add, hab]
  · decide

/-- Witness for C8 at `a = 7`, `b = 8`. -/
theorem add_operator_matches_checked_witness :
    U12.add ⟨7⟩ ⟨8⟩ = U12.checked_add ⟨7⟩ ⟨8⟩ :=
  add_operator_matches_checked.1 ⟨7⟩ ⟨8⟩

/-- C9: under the invariant the raw `u16` backing addition inside
`checked_add`, `saturating_add` and `wrapping_add` cannot overflow the
16-bit backing type (the sum is at most 8190 < 65536), so the `% 2 ^ 16`
wrap is the identity and the three operations are computed from the exact
sum: they are total and never abort. -/
theorem backing_add_no_overflow (a b : U12) (ha : a.Inv) (hb : b.Inv) :
    a.val + b.val ≤ 8190 ∧ a.val + b.val < 65536 ∧
    (a.val + b.val) % 65536 = a.val + b.val ∧
    a.checked_add b = (if a.val + b.val ≤ 4095 then some ⟨a.val + b.val⟩ else none) ∧
    a.saturating_add b = (if a.val + b.val ≤ 4095 then ⟨a.val + b.val⟩ else U12.max_value) ∧
    a.wrapping_add b = ⟨(a.val + b.val) &&& 4095⟩ := by
  simp only [U12.Inv] at ha hb
  have hm : (a.val + b.val) % 65536 = a.val + b.val := Nat.mod_eq_of_lt (by omega)
  refine ⟨by omega, by omega, hm, ?_, ?_, ?_⟩
  · simp only [U12.checked_add, hm]
  · simp only [U12.saturating_add, hm]
  · simp only [U12.wrapping_add, hm]

/-- Witness for C9 at the extreme point `a = b = 4095`. -/
theorem backing_add_no_overflow_witness :
    U12.Inv ⟨4095⟩ ∧
    ((4095 : Nat) + 4095 ≤ 8190 ∧ (4095 : Nat) + 4095 < 65536 ∧
     ((4095 : Nat) + 4095) % 65536 = 4095 + 4095 ∧
     U12.checked_add ⟨4095⟩ ⟨4095⟩ =
       (if (4095 : Nat) + 4095 ≤ 4095 then some ⟨4095 + 4095⟩ else none) ∧
     U12.saturating_add ⟨4095⟩ ⟨4095⟩ =
       (if (4095 : Nat) + 4095 ≤ 4095 then ⟨4095 + 4095⟩ else U12.max_value) ∧
     U12.wrapping_add ⟨4095⟩ ⟨4095⟩ = ⟨(4095 + 4095) &&& 4095⟩) :=
  ⟨by decide, backing_add_no_overflow ⟨4095⟩ ⟨4095⟩ (by decide) (by decide)⟩

/-- C10: every reference/value permutation of the overloaded addition and
subtraction operators produces exactly the same result as the canonical
value-based operator on the dereferenced operands, including panicking
(modelled as `none`) in exactly the same overflow/underflow cases. -/
theorem ref_variants_delegate (a b : U12) :
    U12.addRefVal a b = U12.add a b ∧ U12.addValRef a b = U12.add a b ∧
    U12.addRefRef a b = U12.add a b ∧ U12.subRefVal a b = U12.sub a b ∧
    U12.subValRef a b = U12.sub a b ∧ U12.subRefRef a b = U12.sub a b :=
  ⟨rfl, rfl, rfl, rfl, rfl, rfl⟩

/-- Witness for C10 at `a = 1`, `b = 2`. -/
theorem ref_variants_delegate_witness :
    U12.addRefVal ⟨1⟩ ⟨2⟩ = U12.add ⟨1⟩ ⟨2⟩ :=
  (ref_variants_delegate ⟨1⟩ ⟨2⟩).1
